import Mathlib

/-!
Shallow embedding of the orderbook247 engine: the per-symbol aggregated
order book (`src/models/OrderBook.js`, `src/models/PriceLevel.js`), the
feed validators (`src/utils/validators.js`) and the registry's diff /
snapshot application (`src/services/orderbookManager.js`,
`OrderBookManager.updateOrderBook` / `setSnapshot`).

Modelling conventions:
* JavaScript numbers become `ℚ` (prices, quantities) or `ℤ` (update ids,
  counts); wall-clock reads of `Date.now()` become an explicit `now : ℕ`
  argument threaded through every operation that touches a timestamp.
* A JS `Map` keyed by `price.toString()` becomes a `List PriceLevel` with
  map semantics: `set` replaces in place when the key exists and appends
  otherwise, `delete` removes the (unique) entry.  Distinct rationals have
  distinct decimal strings, so the key is the price itself.
* Wire-format `[price, qty]` pairs are pairs of JS values: a string
  carrying its `parseFloat` result (`none` encodes NaN) or a non-string.
* `Array.prototype.sort` with the numeric comparators of the source is a
  stable sort producing a non-decreasing / non-increasing ordering; we use
  insertion sort, which agrees with it on the price ordering (the only
  thing any consumer of the sorted arrays observes).
-/

namespace OB247

/-- A JS value sitting in a wire-format level entry: either a string
together with its `parseFloat` result (`none` = NaN), or a non-string
value (for which the source's `typeof === 'string'` test fails). -/
inductive JSVal where
  | str (parsed : Option ℚ)
  | nonstr
deriving DecidableEq, Repr

/-- A raw `[price, qty]` wire pair (elements 0 and 1 of the JSON array). -/
structure RawLevel where
  priceStr : JSVal
  qtyStr : JSVal
deriving DecidableEq, Repr

/-- `PriceLevel` (src/models/PriceLevel.js): price, aggregate quantity,
order count, last-touch timestamp (`Date.now()` becomes the `now`
argument of the constructor call sites).  `toJSON` copies exactly these
four fields, so queries return the record itself. -/
structure PriceLevel where
  price : ℚ
  quantity : ℚ
  count : ℤ
  timestamp : ℕ
deriving DecidableEq, Repr

/-- `Map.prototype.set` keyed by price: replace in place if present,
append otherwise. -/
def mapSet : List PriceLevel → PriceLevel → List PriceLevel
  | [], l => [l]
  | x :: xs, l => if x.price = l.price then l :: xs else x :: mapSet xs l

/-- `Map.prototype.delete` keyed by price: remove the first (in a map,
only) entry with that key. -/
def mapDelete (p : ℚ) : List PriceLevel → List PriceLevel
  | [] => []
  | x :: xs => if x.price = p then xs else x :: mapDelete p xs

/-- Membership of a key in a side (`Map.prototype.has`). -/
def containsPrice (p : ℚ) (side : List PriceLevel) : Bool :=
  side.any fun l => l.price = p

/-- `OrderBook` (src/models/OrderBook.js): symbol, bid side, ask side,
`lastUpdateId`, `lastUpdateTime`. -/
structure OrderBook where
  symbol : String
  bids : List PriceLevel
  asks : List PriceLevel
  lastUpdateId : ℤ
  lastUpdateTime : ℕ
deriving DecidableEq, Repr

/-- `new OrderBook(symbol)`: empty sides, `lastUpdateId = 0`,
`lastUpdateTime = Date.now()`. -/
def OrderBook.new (symbol : String) (now : ℕ) : OrderBook :=
  ⟨symbol, [], [], 0, now⟩

/-- `OrderBook.addBid(price, quantity, count = 1)`: insert/replace when
`quantity > 0`, delete otherwise.  Call sites using the default pass
`count = 1` explicitly here. -/
def OrderBook.addBid (b : OrderBook) (now : ℕ) (price quantity : ℚ)
    (count : ℤ) : OrderBook :=
  if quantity > 0 then
    { b with bids := mapSet b.bids ⟨price, quantity, count, now⟩ }
  else
    { b with bids := mapDelete price b.bids }

/-- `OrderBook.addAsk(price, quantity, count = 1)`. -/
def OrderBook.addAsk (b : OrderBook) (now : ℕ) (price quantity : ℚ)
    (count : ℤ) : OrderBook :=
  if quantity > 0 then
    { b with asks := mapSet b.asks ⟨price, quantity, count, now⟩ }
  else
    { b with asks := mapDelete price b.asks }

/-- Bid comparator `(a, b) => b.price - a.price` viewed as the ordering it
sorts into: descending by price. -/
def bidLE (a b : PriceLevel) : Prop := b.price ≤ a.price

/-- Ask comparator `(a, b) => a.price - b.price`: ascending by price. -/
def askLE (a b : PriceLevel) : Prop := a.price ≤ b.price

instance : DecidableRel bidLE := fun a b =>
  inferInstanceAs (Decidable (b.price ≤ a.price))

instance : DecidableRel askLE := fun a b =>
  inferInstanceAs (Decidable (a.price ≤ b.price))

instance : IsTotal PriceLevel bidLE := ⟨fun a b => le_total b.price a.price⟩

instance : IsTrans PriceLevel bidLE :=
  ⟨fun _ _ _ hab hbc => le_trans hbc hab⟩

instance : IsTotal PriceLevel askLE := ⟨fun a b => le_total a.price b.price⟩

instance : IsTrans PriceLevel askLE :=
  ⟨fun _ _ _ hab hbc => le_trans hab hbc⟩

/-- `Array.from(this.bids.values()).sort((a, b) => b.price - a.price)`. -/
def sortBids (l : List PriceLevel) : List PriceLevel := l.insertionSort bidLE

/-- `Array.from(this.asks.values()).sort((a, b) => a.price - b.price)`. -/
def sortAsks (l : List PriceLevel) : List PriceLevel := l.insertionSort askLE

/-- `Array.prototype.slice(0, e)`: a negative end index counts back from
the end of the array. -/
def jsSlice (l : List PriceLevel) (e : ℤ) : List PriceLevel :=
  if e < 0 then l.take (l.length - (-e).toNat) else l.take e.toNat

/-- `OrderBook.getBids(limit = null)`: sort descending; `if (limit)` is a
JS truthiness test, so a `null` (here `none`) or `0` limit returns the
whole sorted side, any other limit slices. -/
def OrderBook.getBids (b : OrderBook) (limit : Option ℤ) : List PriceLevel :=
  match limit with
  | none => sortBids b.bids
  | some n => if n = 0 then sortBids b.bids else jsSlice (sortBids b.bids) n

/-- `OrderBook.getAsks(limit = null)`. -/
def OrderBook.getAsks (b : OrderBook) (limit : Option ℤ) : List PriceLevel :=
  match limit with
  | none => sortAsks b.asks
  | some n => if n = 0 then sortAsks b.asks else jsSlice (sortAsks b.asks) n

/-- `OrderBook.getSpread()`: `getBids(1)[0]` / `getAsks(1)[0]` are the
heads of the sorted sides; `null` when either is missing. -/
def OrderBook.getSpread (b : OrderBook) : Option ℚ :=
  match (b.getBids (some 1)).head?, (b.getAsks (some 1)).head? with
  | some bestBid, some bestAsk => some (bestAsk.price - bestBid.price)
  | _, _ => none

/-- `OrderBook.getMidPrice()`. -/
def OrderBook.getMidPrice (b : OrderBook) : Option ℚ :=
  match (b.getBids (some 1)).head?, (b.getAsks (some 1)).head? with
  | some bestBid, some bestAsk => some ((bestBid.price + bestAsk.price) / 2)
  | _, _ => none

/-- The composite record returned by `OrderBook.getSnapshot(limit)`. -/
structure Snapshot where
  symbol : String
  lastUpdateId : ℤ
  lastUpdateTime : ℕ
  bids : List PriceLevel
  asks : List PriceLevel
  spread : Option ℚ
  midPrice : Option ℚ
  totalBids : ℕ
  totalAsks : ℕ
deriving DecidableEq, Repr

/-- `OrderBook.getSnapshot(limit = null)`. -/
def OrderBook.getSnapshot (b : OrderBook) (limit : Option ℤ) : Snapshot :=
  ⟨b.symbol, b.lastUpdateId, b.lastUpdateTime, b.getBids limit,
    b.getAsks limit, b.getSpread, b.getMidPrice, b.bids.length,
    b.asks.length⟩

/-- `OrderBook.updateLastUpdateId(updateId)`: also touches
`lastUpdateTime = Date.now()`. -/
def OrderBook.updateLastUpdateId (b : OrderBook) (now : ℕ) (updateId : ℤ) :
    OrderBook :=
  { b with lastUpdateId := updateId, lastUpdateTime := now }

/-- `OrderBook.clear()`. -/
def OrderBook.clear (b : OrderBook) (now : ℕ) : OrderBook :=
  { b with bids := [], asks := [], lastUpdateId := 0, lastUpdateTime := now }

/-- Per-side accumulator record of
`OrderBook.getAccumulatedQuantityToPrice`. -/
structure AccSide where
  quantity : ℚ
  cost : ℚ
  averagePrice : ℚ
deriving DecidableEq, Repr

/-- Result record of `OrderBook.getAccumulatedQuantityToPrice`. -/
structure AccResult where
  targetPrice : ℚ
  bids : AccSide
  asks : AccSide
  total : AccSide
deriving DecidableEq, Repr

/-- The bid loop of `getAccumulatedQuantityToPrice`: walk the descending
side, accumulate quantity and `quantity * price` while `price ≥ target`,
`break` at the first failing level. -/
def accWalkGE (target : ℚ) : List PriceLevel → ℚ → ℚ → ℚ × ℚ
  | [], q, c => (q, c)
  | l :: ls, q, c =>
    if l.price ≥ target then
      accWalkGE target ls (q + l.quantity) (c + l.quantity * l.price)
    else (q, c)

/-- The ask loop of `getAccumulatedQuantityToPrice`: walk the ascending
side while `price ≤ target`. -/
def accWalkLE (target : ℚ) : List PriceLevel → ℚ → ℚ → ℚ × ℚ
  | [], q, c => (q, c)
  | l :: ls, q, c =>
    if l.price ≤ target then
      accWalkLE target ls (q + l.quantity) (c + l.quantity * l.price)
    else (q, c)

/-- `OrderBook.getAccumulatedQuantityToPrice(targetPrice, side = 'both')`.
Division by a zero quantity never occurs: each `averagePrice` guards with
`quantity > 0`. -/
def OrderBook.getAccumulatedQuantityToPrice (b : OrderBook) (targetPrice : ℚ)
    (side : String) : AccResult :=
  let bidAcc :=
    if side = "both" ∨ side = "bids" then
      accWalkGE targetPrice (sortBids b.bids) 0 0
    else (0, 0)
  let askAcc :=
    if side = "both" ∨ side = "asks" then
      accWalkLE targetPrice (sortAsks b.asks) 0 0
    else (0, 0)
  { targetPrice := targetPrice
    bids := ⟨bidAcc.1, bidAcc.2,
      if bidAcc.1 > 0 then bidAcc.2 / bidAcc.1 else 0⟩
    asks := ⟨askAcc.1, askAcc.2,
      if askAcc.1 > 0 then askAcc.2 / askAcc.1 else 0⟩
    total := ⟨bidAcc.1 + askAcc.1, bidAcc.2 + askAcc.2,
      if bidAcc.1 + askAcc.1 > 0 then
        (bidAcc.2 + askAcc.2) / (bidAcc.1 + askAcc.1)
      else 0⟩ }

/-- An element of the `levelsConsumed` array of `getMarketImpact`. -/
structure ConsumedLevel where
  price : ℚ
  quantity : ℚ
  cost : ℚ
deriving DecidableEq, Repr

/-- The consuming loop of `getMarketImpact`: walk the sorted opposite
side, `break` when `remainingSize ≤ 0`, else consume
`min(remainingSize, level.quantity)`, accumulate cost, push onto
`levelsConsumed` and remember the level's price as `finalPrice`.  Returns
(remainingSize, totalCost, levelsConsumed, finalPrice). -/
def impactWalk : List PriceLevel → ℚ → ℚ → List ConsumedLevel → ℚ →
    ℚ × ℚ × List ConsumedLevel × ℚ
  | [], remaining, totalCost, consumed, finalPrice =>
    (remaining, totalCost, consumed, finalPrice)
  | l :: ls, remaining, totalCost, consumed, finalPrice =>
    if remaining ≤ 0 then (remaining, totalCost, consumed, finalPrice)
    else
      impactWalk ls (remaining - min remaining l.quantity)
        (totalCost + min remaining l.quantity * l.price)
        (consumed ++ [⟨l.price, min remaining l.quantity,
          min remaining l.quantity * l.price⟩])
        l.price

/-- Result record of `OrderBook.getMarketImpact`. -/
structure MarketImpact where
  orderSize : ℚ
  side : String
  totalCost : ℚ
  averagePrice : ℚ
  finalPrice : ℚ
  remainingSize : ℚ
  filledSize : ℚ
  levelsConsumed : List ConsumedLevel
  slippage : ℚ
  canFill : Bool
deriving DecidableEq, Repr

/-- `OrderBook.getMarketImpact(orderSize, side = 'buy')`.  Any side other
than the exact string `'buy'` takes the `else` (sell) branch.  JS float
boundary cases, encoded directly: when nothing was consumed,
`averagePrice` is `0/0 = NaN` and the slippage expression is NaN, which
`slippage || 0` coerces to `0` — in `ℚ` the same division yields `0` and
we return slippage `0`; when the consumed side has no best level the
optional-chaining arithmetic is again NaN coerced to `0`.  (A best level
with price exactly `0` would give JS `±Infinity`; such levels cannot be
inserted by the validated ingestion paths, and we return the `ℚ`
division-by-zero value `0` there.) -/
def OrderBook.getMarketImpact (b : OrderBook) (orderSize : ℚ)
    (side : String) : Option MarketImpact :=
  if orderSize ≤ 0 then none
  else
    let levels := if side = "buy" then sortAsks b.asks else sortBids b.bids
    let walk := impactWalk levels orderSize 0 [] 0
    let remainingSize := walk.1
    let totalCost := walk.2.1
    let averagePrice := totalCost / (orderSize - remainingSize)
    let best :=
      if side = "buy" then (b.getAsks (some 1)).head?
      else (b.getBids (some 1)).head?
    let slippage : ℚ :=
      if orderSize - remainingSize = 0 then 0
      else
        match best with
        | none => 0
        | some lvl =>
          if side = "buy" then
            (averagePrice - lvl.price) / lvl.price * 100
          else
            (lvl.price - averagePrice) / lvl.price * 100
    some
      { orderSize := orderSize
        side := side
        totalCost := totalCost
        averagePrice := averagePrice
        finalPrice := walk.2.2.2
        remainingSize := remainingSize
        filledSize := orderSize - remainingSize
        levelsConsumed := walk.2.2.1
        slippage := slippage
        canFill := remainingSize = 0 }

/-! ## Feed validators (src/utils/validators.js) -/

/-- `Validators.isValidPriceLevel(level)`: `level` truthy, both entries
strings, both `parseFloat`s non-NaN, price > 0, quantity ≥ 0.  `none`
models a falsy (null/undefined) element. -/
def isValidPriceLevel : Option RawLevel → Bool
  | none => false
  | some l =>
    match l.priceStr, l.qtyStr with
    | JSVal.str (some p), JSVal.str (some q) => decide (p > 0) && decide (q ≥ 0)
    | _, _ => false

/-- `Validators.sanitizePriceLevel(level)` → parsed (price, quantity).
Only ever called on levels that passed `isValidPriceLevel`; on other
inputs JS would produce NaN and we return `(0, 0)`. -/
def sanitizePriceLevel : Option RawLevel → ℚ × ℚ
  | some ⟨JSVal.str (some p), JSVal.str (some q)⟩ => (p, q)
  | _ => (0, 0)

/-- A diff-update envelope (`depthUpdate` message), as far as the engine
inspects it.  `eIsDepthUpdate` models `data.e === 'depthUpdate'`,
`sTruthy` models the truthiness of `data.s`; ids are JS numbers whose
truthiness is `≠ 0`. -/
structure DepthUpdate where
  eIsDepthUpdate : Bool
  sTruthy : Bool
  U : ℤ
  u : ℤ
  b : List (Option RawLevel)
  a : List (Option RawLevel)
deriving DecidableEq, Repr

/-- `Validators.isValidDepthUpdate(data)`. -/
def isValidDepthUpdate (d : DepthUpdate) : Bool :=
  d.eIsDepthUpdate && d.sTruthy && decide (d.u ≠ 0) && decide (d.U ≠ 0) &&
    d.b.all isValidPriceLevel && d.a.all isValidPriceLevel

/-- A snapshot envelope.  `lastUpdateId` is `none` when the field is
absent (undefined, falsy). -/
structure RawSnapshot where
  lastUpdateId : Option ℤ
  bids : List (Option RawLevel)
  asks : List (Option RawLevel)
deriving DecidableEq, Repr

/-- `Validators.isValidSnapshot(data)`: `data.lastUpdateId` truthy and
both sides arrays of valid levels. -/
def isValidSnapshot (s : RawSnapshot) : Bool :=
  (match s.lastUpdateId with
   | none => false
   | some n => decide (n ≠ 0)) &&
    s.bids.all isValidPriceLevel && s.asks.all isValidPriceLevel

/-- `Validators.validateSequenceNumber(currentId, newFirstId, newLastId)`. -/
def validateSequenceNumber (currentId newFirstId newLastId : ℤ) : Bool :=
  decide (newFirstId ≤ currentId + 1) && decide (newLastId ≥ currentId + 1)

/-! ## Registry: diff and snapshot application
(`OrderBookManager.updateOrderBook` / `setSnapshot`).  The symbol →
book map lookup/creation is elided: the claims quantify over the target
book, which these functions transform.  `broadcastUpdate` is modelled by
the final `Bool` of `updateOrderBook` (whether it was invoked). -/

/-- The bid loop shared by `updateOrderBook` and `setSnapshot`: for each
level passing `isValidPriceLevel`, sanitize and `addBid` (default
count 1). -/
def applyBidLevels (now : ℕ) (levels : List (Option RawLevel))
    (b : OrderBook) : OrderBook :=
  levels.foldl
    (fun book lvl =>
      if isValidPriceLevel lvl then
        book.addBid now (sanitizePriceLevel lvl).1 (sanitizePriceLevel lvl).2 1
      else book)
    b

/-- The ask loop shared by `updateOrderBook` and `setSnapshot`. -/
def applyAskLevels (now : ℕ) (levels : List (Option RawLevel))
    (b : OrderBook) : OrderBook :=
  levels.foldl
    (fun book lvl =>
      if isValidPriceLevel lvl then
        book.addAsk now (sanitizePriceLevel lvl).1 (sanitizePriceLevel lvl).2 1
      else book)
    b

/-- The tail of `updateOrderBook` after the sequencing checks: apply the
bid changes, then the ask changes, then
`orderbook.updateLastUpdateId(depthData.u)`. -/
def applyDiffChanges (now : ℕ) (d : DepthUpdate) (b : OrderBook) :
    OrderBook :=
  OrderBook.updateLastUpdateId (applyAskLevels now d.a (applyBidLevels now d.b b))
    now d.u

/-- `OrderBookManager.updateOrderBook(symbol, depthData)` acting on the
resolved book.  Returns (return value, final book, whether
`broadcastUpdate` ran).  The first two branches call
`updateLastUpdateId(depthData.u)` eagerly before falling through to the
common apply-and-adopt tail. -/
def updateOrderBook (now : ℕ) (book : OrderBook) (d : DepthUpdate) :
    Bool × OrderBook × Bool :=
  if book.lastUpdateId = 0 then
    (true, applyDiffChanges now d (book.updateLastUpdateId now d.u), true)
  else if d.U - book.lastUpdateId > 1000 then
    (true, applyDiffChanges now d (book.updateLastUpdateId now d.u), true)
  else if validateSequenceNumber book.lastUpdateId d.U d.u then
    (true, applyDiffChanges now d book, true)
  else
    (false, book, false)

/-- `OrderBookManager.setSnapshot(symbol, snapshotData)` acting on the
resolved book: validate, `clear`, insert all valid bids and asks, adopt
the snapshot's `lastUpdateId` (present and non-zero because validation
passed; `getD 0` is the unreachable default). -/
def setSnapshot (now : ℕ) (book : OrderBook) (s : RawSnapshot) :
    Bool × OrderBook :=
  if isValidSnapshot s then
    (true,
      OrderBook.updateLastUpdateId
        (applyAskLevels now s.asks (applyBidLevels now s.bids (book.clear now)))
        now (s.lastUpdateId.getD 0))
  else (false, book)

/-! ## Operation sequences for the presence invariant -/

/-- One `add_bid` / `add_ask` operation (count defaulted to 1 as in the
diff/snapshot ingestion paths), carrying its wall-clock instant. -/
inductive BookOp where
  | bid (now : ℕ) (price quantity : ℚ)
  | ask (now : ℕ) (price quantity : ℚ)
deriving DecidableEq, Repr

/-- Apply one operation. -/
def applyOp (b : OrderBook) : BookOp → OrderBook
  | .bid now p q => b.addBid now p q 1
  | .ask now p q => b.addAsk now p q 1

/-- Apply a sequence of operations in order. -/
def runOps (b : OrderBook) (ops : List BookOp) : OrderBook :=
  ops.foldl applyOp b

/-- The quantity of the most recent bid operation at price `p`, if any. -/
def lastBidQty (p : ℚ) (ops : List BookOp) : Option ℚ :=
  ops.reverse.findSome? fun op =>
    match op with
    | .bid _ p' q => if p' = p then some q else none
    | .ask _ _ _ => none

/-- The quantity of the most recent ask operation at price `p`, if any. -/
def lastAskQty (p : ℚ) (ops : List BookOp) : Option ℚ :=
  ops.reverse.findSome? fun op =>
    match op with
    | .ask _ p' q => if p' = p then some q else none
    | .bid _ _ _ => none

/-- A side's keys are pairwise distinct (the `Map` key-uniqueness
invariant). -/
def pricesNodup (side : List PriceLevel) : Prop :=
  (side.map PriceLevel.price).Nodup

instance (side : List PriceLevel) : Decidable (pricesNodup side) :=
  inferInstanceAs (Decidable ((side.map PriceLevel.price).Nodup))

/-- The claim's reading of `isValidSnapshot`, written from the spec's
words (`last_update_id` strictly positive) for comparison with the
source's truthiness test. -/
def isValidSnapshotSpec (s : RawSnapshot) : Bool :=
  (match s.lastUpdateId with
   | none => false
   | some n => decide (0 < n)) &&
    s.bids.all isValidPriceLevel && s.asks.all isValidPriceLevel

/-! ## Concrete sample inputs used by witnesses and counterexamples -/

/-- A book that has adopted update id 100 (spec scenario 5). -/
def book100 : OrderBook := ⟨"btcusdt", [], [], 100, 0⟩

/-- An in-sequence diff for `book100`: `U = 101, u = 105`. -/
def diffOk : DepthUpdate :=
  ⟨true, true, 101, 105,
    [some ⟨JSVal.str (some 50000), JSVal.str (some 2)⟩], []⟩

/-- A sample two-sided book with distinct prices per side. -/
def sampleBook : OrderBook :=
  ⟨"btcusdt",
    [⟨50000, 3/2, 1, 0⟩, ⟨49999, 1, 1, 0⟩],
    [⟨50001, 2, 1, 0⟩, ⟨50002, 1, 1, 0⟩], 7, 0⟩

/-- A transiently crossed book: best bid 10 above best ask 9. -/
def crossedBook : OrderBook :=
  ⟨"btcusdt", [⟨10, 1, 1, 0⟩], [⟨9, 1, 1, 0⟩], 7, 0⟩

/-- A snapshot envelope whose only bid level has quantity `0`.  It passes
`isValidSnapshot` (quantity ≥ 0 is allowed) but `addBid` deletes instead
of inserting, so the level is absent from the round-tripped book. -/
def snapZero : RawSnapshot :=
  ⟨some 7, [some ⟨JSVal.str (some 100), JSVal.str (some 0)⟩], []⟩

/-- A snapshot envelope with a negative `lastUpdateId`: JS truthiness
accepts it although it is not `> 0`. -/
def snapNeg : RawSnapshot := ⟨some (-1), [], []⟩

/-- A well-behaved snapshot envelope: positive quantities, distinct
prices per side. -/
def snapOk : RawSnapshot :=
  ⟨some 42,
    [some ⟨JSVal.str (some 100), JSVal.str (some 3)⟩,
      some ⟨JSVal.str (some 99), JSVal.str (some 1)⟩],
    [some ⟨JSVal.str (some 101), JSVal.str (some 2)⟩]⟩

/-! ## Lemmas about the map primitives -/

theorem containsPrice_nil (p : ℚ) : containsPrice p [] = false := rfl

theorem containsPrice_cons (p : ℚ) (x : PriceLevel) (xs : List PriceLevel) :
    containsPrice p (x :: xs) = (decide (x.price = p) || containsPrice p xs) :=
  rfl

theorem containsPrice_eq_true_iff (p : ℚ) (side : List PriceLevel) :
    containsPrice p side = true ↔ ∃ l ∈ side, l.price = p := by
  simp [containsPrice]

theorem mem_map_price_iff (q : ℚ) (side : List PriceLevel) :
    q ∈ side.map PriceLevel.price ↔ containsPrice q side = true := by
  simp [containsPrice, List.mem_map]

theorem contains_mapSet (p : ℚ) (side : List PriceLevel) (l : PriceLevel) :
    containsPrice p (mapSet side l) = true ↔
      p = l.price ∨ containsPrice p side = true := by
  induction side with
  | nil => simp [mapSet, containsPrice, eq_comm]
  | cons x xs ih =>
    rw [mapSet]
    by_cases h : x.price = l.price
    · rw [if_pos h, containsPrice_cons, containsPrice_cons]
      simp only [Bool.or_eq_true, decide_eq_true_eq]
      constructor
      · rintro (h1 | h2)
        · exact Or.inl h1.symm
        · exact Or.inr (Or.inr h2)
      · rintro (h1 | h2 | h3)
        · exact Or.inl h1.symm
        · exact Or.inl (h ▸ h2)
        · exact Or.inr h3
    · rw [if_neg h, containsPrice_cons, containsPrice_cons]
      simp only [Bool.or_eq_true, decide_eq_true_eq, ih]
      tauto

theorem contains_mapDelete_ne {p q : ℚ} (h : p ≠ q) (side : List PriceLevel) :
    containsPrice p (mapDelete q side) = containsPrice p side := by
  induction side with
  | nil => rfl
  | cons x xs ih =>
    by_cases hx : x.price = q
    · have hxp : ¬ x.price = p := by rw [hx]; exact fun hc => h hc.symm
      simp only [mapDelete, if_pos hx, containsPrice_cons,
        decide_eq_false hxp, Bool.false_or]
    · simp [mapDelete, hx, containsPrice_cons, ih]

theorem mapDelete_of_not_contains {p : ℚ} {side : List PriceLevel}
    (h : containsPrice p side = false) : mapDelete p side = side := by
  induction side with
  | nil => rfl
  | cons x xs ih =>
    rw [containsPrice_cons, Bool.or_eq_false_iff] at h
    have hx : ¬ x.price = p := by simpa using h.1
    simp [mapDelete, hx, ih h.2]

theorem contains_mapDelete_self {p : ℚ} {side : List PriceLevel}
    (h : pricesNodup side) : containsPrice p (mapDelete p side) = false := by
  induction side with
  | nil => rfl
  | cons x xs ih =>
    rw [pricesNodup, List.map_cons, List.nodup_cons] at h
    by_cases hx : x.price = p
    · subst hx
      simp only [mapDelete, if_pos rfl]
      rw [← Bool.not_eq_true, ← mem_map_price_iff]
      exact h.1
    · simp [mapDelete, hx, containsPrice_cons, ih h.2]

theorem mapSet_of_not_contains {side : List PriceLevel} {l : PriceLevel}
    (h : containsPrice l.price side = false) : mapSet side l = side ++ [l] := by
  induction side with
  | nil => rfl
  | cons x xs ih =>
    rw [containsPrice_cons, Bool.or_eq_false_iff] at h
    have hx : ¬ x.price = l.price := by simpa using h.1
    simp [mapSet, hx, ih h.2]

theorem mapDelete_sublist (p : ℚ) (side : List PriceLevel) :
    (mapDelete p side).Sublist side := by
  induction side with
  | nil => simp [mapDelete]
  | cons x xs ih =>
    by_cases hx : x.price = p
    · rw [mapDelete, if_pos hx]
      exact List.sublist_cons_self x xs
    · rw [mapDelete, if_neg hx]
      exact ih.cons₂ x

theorem pricesNodup_mapDelete {p : ℚ} {side : List PriceLevel}
    (h : pricesNodup side) : pricesNodup (mapDelete p side) :=
  List.Nodup.sublist ((mapDelete_sublist p side).map PriceLevel.price) h

theorem pricesNodup_mapSet {side : List PriceLevel} {l : PriceLevel}
    (h : pricesNodup side) : pricesNodup (mapSet side l) := by
  induction side with
  | nil => simp [mapSet, pricesNodup]
  | cons x xs ih =>
    rw [pricesNodup, List.map_cons, List.nodup_cons] at h
    by_cases hx : x.price = l.price
    · rw [pricesNodup]
      simp only [mapSet, if_pos hx, List.map_cons, List.nodup_cons]
      exact ⟨by rw [← hx]; exact h.1, h.2⟩
    · rw [pricesNodup]
      simp only [mapSet, if_neg hx, List.map_cons, List.nodup_cons]
      refine ⟨?_, ih h.2⟩
      rw [mem_map_price_iff]
      intro hc
      rcases (contains_mapSet x.price xs l).mp hc with h1 | h2
      · exact hx h1
      · exact h.1 ((mem_map_price_iff x.price xs).mpr h2)

/-! ## Lemmas about `addBid` / `addAsk` and operation sequences -/

theorem addBid_asks (b : OrderBook) (now : ℕ) (p q : ℚ) (c : ℤ) :
    (b.addBid now p q c).asks = b.asks := by
  unfold OrderBook.addBid
  split <;> rfl

theorem addAsk_bids (b : OrderBook) (now : ℕ) (p q : ℚ) (c : ℤ) :
    (b.addAsk now p q c).bids = b.bids := by
  unfold OrderBook.addAsk
  split <;> rfl

theorem pricesNodup_addBid {b : OrderBook} (h : pricesNodup b.bids)
    (now : ℕ) (p q : ℚ) (c : ℤ) : pricesNodup (b.addBid now p q c).bids := by
  unfold OrderBook.addBid
  split
  · exact pricesNodup_mapSet h
  · exact pricesNodup_mapDelete h

theorem pricesNodup_addAsk {b : OrderBook} (h : pricesNodup b.asks)
    (now : ℕ) (p q : ℚ) (c : ℤ) : pricesNodup (b.addAsk now p q c).asks := by
  unfold OrderBook.addAsk
  split
  · exact pricesNodup_mapSet h
  · exact pricesNodup_mapDelete h

theorem pricesNodup_runOps_bids {b : OrderBook} (h : pricesNodup b.bids)
    (ops : List BookOp) : pricesNodup (runOps b ops).bids := by
  induction ops generalizing b with
  | nil => exact h
  | cons op ops ih =>
    rw [runOps, List.foldl_cons]
    cases op with
    | bid now p q => exact ih (pricesNodup_addBid h now p q 1)
    | ask now p q => exact ih (by rw [applyOp, addAsk_bids]; exact h)

theorem pricesNodup_runOps_asks {b : OrderBook} (h : pricesNodup b.asks)
    (ops : List BookOp) : pricesNodup (runOps b ops).asks := by
  induction ops generalizing b with
  | nil => exact h
  | cons op ops ih =>
    rw [runOps, List.foldl_cons]
    cases op with
    | bid now p q => exact ih (by rw [applyOp, addBid_asks]; exact h)
    | ask now p q => exact ih (pricesNodup_addAsk h now p q 1)

theorem contains_addBid (b : OrderBook) (now : ℕ) (p p' q : ℚ) (c : ℤ)
    (hnd : pricesNodup b.bids) :
    (containsPrice p (b.addBid now p' q c).bids = true ↔
      (if p' = p then 0 < q else containsPrice p b.bids = true)) := by
  unfold OrderBook.addBid
  by_cases hq : q > 0
  · rw [if_pos hq]
    by_cases hp : p' = p
    · subst hp
      simp [contains_mapSet, hq]
    · simp only [contains_mapSet, if_neg hp]
      constructor
      · rintro (h1 | h2)
        · exact absurd h1.symm hp
        · exact h2
      · exact Or.inr
  · rw [if_neg hq]
    by_cases hp : p' = p
    · subst hp
      simp only [if_pos rfl]
      constructor
      · intro hc
        rw [contains_mapDelete_self hnd] at hc
        exact absurd hc (by simp)
      · intro h0
        exact absurd h0 (by exact fun h => hq h)
    · rw [if_neg hp, contains_mapDelete_ne (fun h => hp h.symm)]

theorem contains_addAsk (b : OrderBook) (now : ℕ) (p p' q : ℚ) (c : ℤ)
    (hnd : pricesNodup b.asks) :
    (containsPrice p (b.addAsk now p' q c).asks = true ↔
      (if p' = p then 0 < q else containsPrice p b.asks = true)) := by
  unfold OrderBook.addAsk
  by_cases hq : q > 0
  · rw [if_pos hq]
    by_cases hp : p' = p
    · subst hp
      simp [contains_mapSet, hq]
    · simp only [contains_mapSet, if_neg hp]
      constructor
      · rintro (h1 | h2)
        · exact absurd h1.symm hp
        · exact h2
      · exact Or.inr
  · rw [if_neg hq]
    by_cases hp : p' = p
    · subst hp
      simp only [if_pos rfl]
      constructor
      · intro hc
        rw [contains_mapDelete_self hnd] at hc
        exact absurd hc (by simp)
      · intro h0
        exact absurd h0 (by exact fun h => hq h)
    · rw [if_neg hp, contains_mapDelete_ne (fun h => hp h.symm)]

theorem runOps_append_single (b : OrderBook) (ops : List BookOp)
    (op : BookOp) : runOps b (ops ++ [op]) = applyOp (runOps b ops) op := by
  simp [runOps, List.foldl_append]

theorem lastBidQty_append_bid (p : ℚ) (ops : List BookOp) (now : ℕ)
    (p' q : ℚ) :
    lastBidQty p (ops ++ [BookOp.bid now p' q]) =
      if p' = p then some q else lastBidQty p ops := by
  by_cases hp : p' = p <;>
    simp [lastBidQty, List.reverse_append, List.findSome?_cons, hp]

theorem lastBidQty_append_ask (p : ℚ) (ops : List BookOp) (now : ℕ)
    (p' q : ℚ) :
    lastBidQty p (ops ++ [BookOp.ask now p' q]) = lastBidQty p ops := by
  simp [lastBidQty, List.reverse_append, List.findSome?_cons]

theorem lastAskQty_append_ask (p : ℚ) (ops : List BookOp) (now : ℕ)
    (p' q : ℚ) :
    lastAskQty p (ops ++ [BookOp.ask now p' q]) =
      if p' = p then some q else lastAskQty p ops := by
  by_cases hp : p' = p <;>
    simp [lastAskQty, List.reverse_append, List.findSome?_cons, hp]

theorem lastAskQty_append_bid (p : ℚ) (ops : List BookOp) (now : ℕ)
    (p' q : ℚ) :
    lastAskQty p (ops ++ [BookOp.bid now p' q]) = lastAskQty p ops := by
  simp [lastAskQty, List.reverse_append, List.findSome?_cons]

theorem contains_runOps_bids (p : ℚ) (ops : List BookOp) (b : OrderBook)
    (hnd : pricesNodup b.bids) :
    (containsPrice p (runOps b ops).bids = true ↔
      (match lastBidQty p ops with
       | some q => 0 < q
       | none => containsPrice p b.bids = true)) := by
  induction ops using List.reverseRecOn with
  | nil => simp [runOps, lastBidQty]
  | append_singleton ops op ih =>
    rw [runOps_append_single]
    cases op with
    | bid now p' q =>
      rw [applyOp, lastBidQty_append_bid]
      rw [contains_addBid _ now p p' q 1 (pricesNodup_runOps_bids hnd ops)]
      by_cases hp : p' = p
      · simp [hp]
      · rw [if_neg hp, if_neg hp]
        exact ih
    | ask now p' q =>
      rw [applyOp, addAsk_bids, lastBidQty_append_ask]
      exact ih

theorem contains_runOps_asks (p : ℚ) (ops : List BookOp) (b : OrderBook)
    (hnd : pricesNodup b.asks) :
    (containsPrice p (runOps b ops).asks = true ↔
      (match lastAskQty p ops with
       | some q => 0 < q
       | none => containsPrice p b.asks = true)) := by
  induction ops using List.reverseRecOn with
  | nil => simp [runOps, lastAskQty]
  | append_singleton ops op ih =>
    rw [runOps_append_single]
    cases op with
    | ask now p' q =>
      rw [applyOp, lastAskQty_append_ask]
      rw [contains_addAsk _ now p p' q 1 (pricesNodup_runOps_asks hnd ops)]
      by_cases hp : p' = p
      · simp [hp]
      · rw [if_neg hp, if_neg hp]
        exact ih
    | bid now p' q =>
      rw [applyOp, addBid_asks, lastAskQty_append_bid]
      exact ih

/-! ## Lemmas about the per-query sorts -/

theorem sorted_sortBids (l : List PriceLevel) :
    List.Sorted bidLE (sortBids l) :=
  List.sorted_insertionSort bidLE l

theorem sorted_sortAsks (l : List PriceLevel) :
    List.Sorted askLE (sortAsks l) :=
  List.sorted_insertionSort askLE l

theorem perm_sortBids (l : List PriceLevel) : (sortBids l).Perm l :=
  List.perm_insertionSort bidLE l

theorem perm_sortAsks (l : List PriceLevel) : (sortAsks l).Perm l :=
  List.perm_insertionSort askLE l

theorem pricesNodup_sortBids {l : List PriceLevel} (h : pricesNodup l) :
    pricesNodup (sortBids l) :=
  (((perm_sortBids l).map PriceLevel.price).nodup_iff).mpr h

theorem pricesNodup_sortAsks {l : List PriceLevel} (h : pricesNodup l) :
    pricesNodup (sortAsks l) :=
  (((perm_sortAsks l).map PriceLevel.price).nodup_iff).mpr h

theorem sortBids_strict {l : List PriceLevel} (h : pricesNodup l) :
    (sortBids l).Pairwise fun a b => b.price < a.price := by
  have hs : (sortBids l).Pairwise bidLE := sorted_sortBids l
  have hne : (sortBids l).Pairwise fun a b => a.price ≠ b.price :=
    List.pairwise_map.mp (pricesNodup_sortBids h)
  exact (hs.and hne).imp fun hab => lt_of_le_of_ne hab.1 (Ne.symm hab.2)

theorem sortAsks_strict {l : List PriceLevel} (h : pricesNodup l) :
    (sortAsks l).Pairwise fun a b => a.price < b.price := by
  have hs : (sortAsks l).Pairwise askLE := sorted_sortAsks l
  have hne : (sortAsks l).Pairwise fun a b => a.price ≠ b.price :=
    List.pairwise_map.mp (pricesNodup_sortAsks h)
  exact (hs.and hne).imp fun hab => lt_of_le_of_ne hab.1 hab.2

theorem head_sortBids (l : List PriceLevel) (hne : l ≠ []) :
    ∃ bb, (sortBids l).head? = some bb ∧ bb ∈ l ∧
      ∀ x ∈ l, x.price ≤ bb.price := by
  have hperm := perm_sortBids l
  have hsne : sortBids l ≠ [] := by
    intro h0
    exact hne (List.Perm.eq_nil (h0 ▸ hperm).symm)
  obtain ⟨bb, t, ht⟩ := List.exists_cons_of_ne_nil hsne
  refine ⟨bb, by rw [ht]; rfl, ?_, ?_⟩
  · exact hperm.mem_iff.mp (ht ▸ List.mem_cons_self bb t)
  · intro x hx
    have hx' : x ∈ sortBids l := hperm.mem_iff.mpr hx
    rw [ht] at hx'
    rcases List.mem_cons.mp hx' with h1 | h2
    · exact le_of_eq (congrArg PriceLevel.price h1)
    · have hs := sorted_sortBids l
      rw [ht] at hs
      exact List.rel_of_sorted_cons hs x h2

theorem head_sortAsks (l : List PriceLevel) (hne : l ≠ []) :
    ∃ ba, (sortAsks l).head? = some ba ∧ ba ∈ l ∧
      ∀ x ∈ l, ba.price ≤ x.price := by
  have hperm := perm_sortAsks l
  have hsne : sortAsks l ≠ [] := by
    intro h0
    exact hne (List.Perm.eq_nil (h0 ▸ hperm).symm)
  obtain ⟨ba, t, ht⟩ := List.exists_cons_of_ne_nil hsne
  refine ⟨ba, by rw [ht]; rfl, ?_, ?_⟩
  · exact hperm.mem_iff.mp (ht ▸ List.mem_cons_self ba t)
  · intro x hx
    have hx' : x ∈ sortAsks l := hperm.mem_iff.mpr hx
    rw [ht] at hx'
    rcases List.mem_cons.mp hx' with h1 | h2
    · exact le_of_eq (congrArg PriceLevel.price h1).symm
    · have hs := sorted_sortAsks l
      rw [ht] at hs
      exact List.rel_of_sorted_cons hs x h2

theorem head?_take_one {α : Type} (l : List α) : (l.take 1).head? = l.head? := by
  cases l <;> rfl

theorem getBids_one_head? (b : OrderBook) :
    (b.getBids (some 1)).head? = (sortBids b.bids).head? := by
  rw [OrderBook.getBids]
  simp only [if_neg (by norm_num : ¬(1 : ℤ) = 0)]
  rw [jsSlice, if_neg (by norm_num : ¬(1 : ℤ) < 0)]
  exact head?_take_one _

theorem getAsks_one_head? (b : OrderBook) :
    (b.getAsks (some 1)).head? = (sortAsks b.asks).head? := by
  rw [OrderBook.getAsks]
  simp only [if_neg (by norm_num : ¬(1 : ℤ) = 0)]
  rw [jsSlice, if_neg (by norm_num : ¬(1 : ℤ) < 0)]
  exact head?_take_one _

/-! ## Lemmas about the ladder walks -/

theorem impactWalk_cost (levels : List PriceLevel) :
    ∀ (rem tc : ℚ) (acc : List ConsumedLevel) (fp : ℚ),
      ((impactWalk levels rem tc acc fp).2.2.1.map ConsumedLevel.cost).sum + tc =
        (impactWalk levels rem tc acc fp).2.1 +
          (acc.map ConsumedLevel.cost).sum := by
  induction levels with
  | nil =>
    intro rem tc acc fp
    rw [impactWalk]
    ring
  | cons l ls ih =>
    intro rem tc acc fp
    rw [impactWalk]
    by_cases hr : rem ≤ 0
    · rw [if_pos hr]
      ring
    · rw [if_neg hr]
      have h := ih (rem - min rem l.quantity)
        (tc + min rem l.quantity * l.price)
        (acc ++ [⟨l.price, min rem l.quantity, min rem l.quantity * l.price⟩])
        l.price
      rw [List.map_append, List.sum_append] at h
      simp only [List.map_cons, List.map_nil, List.sum_cons, List.sum_nil] at h
      linarith

theorem accWalkGE_spec (target : ℚ) (l : List PriceLevel)
    (hs : List.Sorted bidLE l) :
    ∀ q c : ℚ,
      accWalkGE target l q c =
        (q + ((l.filter fun lv => target ≤ lv.price).map
            PriceLevel.quantity).sum,
          c + ((l.filter fun lv => target ≤ lv.price).map
            fun lv => lv.quantity * lv.price).sum) := by
  induction l with
  | nil =>
    intro q c
    simp [accWalkGE]
  | cons l ls ih =>
    intro q c
    rw [accWalkGE]
    by_cases h : l.price ≥ target
    · rw [if_pos h, ih hs.of_cons]
      have hf : (l :: ls).filter (fun lv => decide (target ≤ lv.price)) =
          l :: ls.filter fun lv => decide (target ≤ lv.price) := by
        rw [List.filter_cons, if_pos (by simpa using h)]
      rw [hf]
      simp only [List.map_cons, List.sum_cons]
      rw [Prod.mk.injEq]
      constructor <;> ring
    · rw [if_neg h]
      have hf : (l :: ls).filter (fun lv => decide (target ≤ lv.price)) = [] := by
        rw [List.filter_cons, if_neg (by simpa using h)]
        rw [List.filter_eq_nil_iff]
        intro lv hlv
        have hle : lv.price ≤ l.price := List.rel_of_sorted_cons hs lv hlv
        simp only [decide_eq_true_eq]
        intro hc
        exact h (le_trans hc hle)
      rw [hf]
      simp

theorem accWalkLE_spec (target : ℚ) (l : List PriceLevel)
    (hs : List.Sorted askLE l) :
    ∀ q c : ℚ,
      accWalkLE target l q c =
        (q + ((l.filter fun lv => lv.price ≤ target).map
            PriceLevel.quantity).sum,
          c + ((l.filter fun lv => lv.price ≤ target).map
            fun lv => lv.quantity * lv.price).sum) := by
  induction l with
  | nil =>
    intro q c
    simp [accWalkLE]
  | cons l ls ih =>
    intro q c
    rw [accWalkLE]
    by_cases h : l.price ≤ target
    · rw [if_pos h, ih hs.of_cons]
      have hf : (l :: ls).filter (fun lv => decide (lv.price ≤ target)) =
          l :: ls.filter fun lv => decide (lv.price ≤ target) := by
        rw [List.filter_cons, if_pos (by simpa using h)]
      rw [hf]
      simp only [List.map_cons, List.sum_cons]
      rw [Prod.mk.injEq]
      constructor <;> ring
    · rw [if_neg h]
      have hf : (l :: ls).filter (fun lv => decide (lv.price ≤ target)) = [] := by
        rw [List.filter_cons, if_neg (by simpa using h)]
        rw [List.filter_eq_nil_iff]
        intro lv hlv
        have hle : l.price ≤ lv.price := List.rel_of_sorted_cons hs lv hlv
        simp only [decide_eq_true_eq]
        intro hc
        exact h (le_trans hle hc)
      rw [hf]
      simp

/-- Filtering then summing is invariant under the per-query sort. -/
theorem filter_sum_sortBids (l : List PriceLevel) (p : PriceLevel → Bool)
    (f : PriceLevel → ℚ) :
    (((sortBids l).filter p).map f).sum = ((l.filter p).map f).sum :=
  (((perm_sortBids l).filter p).map f).sum_eq

theorem filter_sum_sortAsks (l : List PriceLevel) (p : PriceLevel → Bool)
    (f : PriceLevel → ℚ) :
    (((sortAsks l).filter p).map f).sum = ((l.filter p).map f).sum :=
  (((perm_sortAsks l).filter p).map f).sum_eq

/-! ## Lemmas about the registry apply paths -/

theorem addBid_updateLastUpdateId (b : OrderBook) (now n : ℕ) (i : ℤ)
    (p q : ℚ) (c : ℤ) :
    (b.updateLastUpdateId n i).addBid now p q c =
      (b.addBid now p q c).updateLastUpdateId n i := by
  unfold OrderBook.addBid OrderBook.updateLastUpdateId
  split <;> rfl

theorem addAsk_updateLastUpdateId (b : OrderBook) (now n : ℕ) (i : ℤ)
    (p q : ℚ) (c : ℤ) :
    (b.updateLastUpdateId n i).addAsk now p q c =
      (b.addAsk now p q c).updateLastUpdateId n i := by
  unfold OrderBook.addAsk OrderBook.updateLastUpdateId
  split <;> rfl

theorem applyBidLevels_updateLastUpdateId (now : ℕ)
    (lvls : List (Option RawLevel)) :
    ∀ (b : OrderBook) (n : ℕ) (i : ℤ),
      applyBidLevels now lvls (b.updateLastUpdateId n i) =
        (applyBidLevels now lvls b).updateLastUpdateId n i := by
  induction lvls with
  | nil => intro b n i; rfl
  | cons l ls ih =>
    intro b n i
    rw [applyBidLevels, List.foldl_cons, applyBidLevels, List.foldl_cons]
    by_cases hval : isValidPriceLevel l = true
    · rw [if_pos hval, if_pos hval, addBid_updateLastUpdateId]
      exact ih _ n i
    · rw [if_neg hval, if_neg hval]
      exact ih b n i

theorem applyAskLevels_updateLastUpdateId (now : ℕ)
    (lvls : List (Option RawLevel)) :
    ∀ (b : OrderBook) (n : ℕ) (i : ℤ),
      applyAskLevels now lvls (b.updateLastUpdateId n i) =
        (applyAskLevels now lvls b).updateLastUpdateId n i := by
  induction lvls with
  | nil => intro b n i; rfl
  | cons l ls ih =>
    intro b n i
    rw [applyAskLevels, List.foldl_cons, applyAskLevels, List.foldl_cons]
    by_cases hval : isValidPriceLevel l = true
    · rw [if_pos hval, if_pos hval, addAsk_updateLastUpdateId]
      exact ih _ n i
    · rw [if_neg hval, if_neg hval]
      exact ih b n i

/-- The eager `updateLastUpdateId(u)` of the bootstrap / large-gap
branches is overwritten by the final adopt, so the applied book is the
same as from the normal branch. -/
theorem applyDiffChanges_updateLastUpdateId (now : ℕ) (d : DepthUpdate)
    (b : OrderBook) (n : ℕ) (i : ℤ) :
    applyDiffChanges now d (b.updateLastUpdateId n i) =
      applyDiffChanges now d b := by
  rw [applyDiffChanges, applyDiffChanges, applyBidLevels_updateLastUpdateId,
    applyAskLevels_updateLastUpdateId]
  rfl

theorem applyBidLevels_asks (now : ℕ) (lvls : List (Option RawLevel)) :
    ∀ b : OrderBook, (applyBidLevels now lvls b).asks = b.asks := by
  induction lvls with
  | nil => intro b; rfl
  | cons l ls ih =>
    intro b
    rw [applyBidLevels, List.foldl_cons]
    by_cases hval : isValidPriceLevel l = true
    · rw [if_pos hval]
      rw [show (List.foldl _ _ ls = applyBidLevels now ls _) from rfl, ih,
        addBid_asks]
    · rw [if_neg hval]
      exact ih b

theorem applyAskLevels_bids (now : ℕ) (lvls : List (Option RawLevel)) :
    ∀ b : OrderBook, (applyAskLevels now lvls b).bids = b.bids := by
  induction lvls with
  | nil => intro b; rfl
  | cons l ls ih =>
    intro b
    rw [applyAskLevels, List.foldl_cons]
    by_cases hval : isValidPriceLevel l = true
    · rw [if_pos hval]
      rw [show (List.foldl _ _ ls = applyAskLevels now ls _) from rfl, ih,
        addAsk_bids]
    · rw [if_neg hval]
      exact ih b

theorem contains_append (p : ℚ) (s t : List PriceLevel) :
    containsPrice p (s ++ t) = (containsPrice p s || containsPrice p t) := by
  simp [containsPrice, List.any_append]

/-- Inserting valid, positive-quantity levels at pairwise-fresh prices
appends them in order. -/
theorem applyBidLevels_fresh (now : ℕ) :
    ∀ (lvls : List (Option RawLevel)) (b : OrderBook),
      (∀ l ∈ lvls, isValidPriceLevel l = true) →
      (∀ l ∈ lvls, 0 < (sanitizePriceLevel l).2) →
      (lvls.map fun l => (sanitizePriceLevel l).1).Nodup →
      (∀ l ∈ lvls, containsPrice (sanitizePriceLevel l).1 b.bids = false) →
      (applyBidLevels now lvls b).bids =
        b.bids ++ lvls.map fun l =>
          ⟨(sanitizePriceLevel l).1, (sanitizePriceLevel l).2, 1, now⟩ := by
  intro lvls
  induction lvls with
  | nil => intro b _ _ _ _; simp [applyBidLevels]
  | cons l ls ih =>
    intro b hval hq hnd hfresh
    rw [applyBidLevels, List.foldl_cons, if_pos (hval l (by simp))]
    rw [show (List.foldl _ _ ls = applyBidLevels now ls _) from rfl]
    have hq0 : (sanitizePriceLevel l).2 > 0 := hq l (by simp)
    have hbids :
        (b.addBid now (sanitizePriceLevel l).1 (sanitizePriceLevel l).2 1).bids =
          b.bids ++ [⟨(sanitizePriceLevel l).1, (sanitizePriceLevel l).2, 1, now⟩] := by
      rw [OrderBook.addBid, if_pos hq0]
      exact mapSet_of_not_contains (hfresh l (by simp))
    rw [List.map_cons, List.nodup_cons] at hnd
    rw [ih (b.addBid now (sanitizePriceLevel l).1 (sanitizePriceLevel l).2 1)
      (fun x hx => hval x (List.mem_cons_of_mem l hx))
      (fun x hx => hq x (List.mem_cons_of_mem l hx)) hnd.2 ?_, hbids]
    · simp
    · intro x hx
      rw [hbids, contains_append, Bool.or_eq_false_iff]
      refine ⟨hfresh x (List.mem_cons_of_mem l hx), ?_⟩
      rw [containsPrice_cons, containsPrice_nil, Bool.or_false]
      simp only [decide_eq_false_iff_not]
      intro hc
      exact hnd.1 (hc ▸ List.mem_map_of_mem (fun y => (sanitizePriceLevel y).1) hx)

/-- Ask-side analogue of `applyBidLevels_fresh`. -/
theorem applyAskLevels_fresh (now : ℕ) :
    ∀ (lvls : List (Option RawLevel)) (b : OrderBook),
      (∀ l ∈ lvls, isValidPriceLevel l = true) →
      (∀ l ∈ lvls, 0 < (sanitizePriceLevel l).2) →
      (lvls.map fun l => (sanitizePriceLevel l).1).Nodup →
      (∀ l ∈ lvls, containsPrice (sanitizePriceLevel l).1 b.asks = false) →
      (applyAskLevels now lvls b).asks =
        b.asks ++ lvls.map fun l =>
          ⟨(sanitizePriceLevel l).1, (sanitizePriceLevel l).2, 1, now⟩ := by
  intro lvls
  induction lvls with
  | nil => intro b _ _ _ _; simp [applyAskLevels]
  | cons l ls ih =>
    intro b hval hq hnd hfresh
    rw [applyAskLevels, List.foldl_cons, if_pos (hval l (by simp))]
    rw [show (List.foldl _ _ ls = applyAskLevels now ls _) from rfl]
    have hq0 : (sanitizePriceLevel l).2 > 0 := hq l (by simp)
    have hasks :
        (b.addAsk now (sanitizePriceLevel l).1 (sanitizePriceLevel l).2 1).asks =
          b.asks ++ [⟨(sanitizePriceLevel l).1, (sanitizePriceLevel l).2, 1, now⟩] := by
      rw [OrderBook.addAsk, if_pos hq0]
      exact mapSet_of_not_contains (hfresh l (by simp))
    rw [List.map_cons, List.nodup_cons] at hnd
    rw [ih (b.addAsk now (sanitizePriceLevel l).1 (sanitizePriceLevel l).2 1)
      (fun x hx => hval x (List.mem_cons_of_mem l hx))
      (fun x hx => hq x (List.mem_cons_of_mem l hx)) hnd.2 ?_, hasks]
    · simp
    · intro x hx
      rw [hasks, contains_append, Bool.or_eq_false_iff]
      refine ⟨hfresh x (List.mem_cons_of_mem l hx), ?_⟩
      rw [containsPrice_cons, containsPrice_nil, Bool.or_false]
      simp only [decide_eq_false_iff_not]
      intro hc
      exact hnd.1 (hc ▸ List.mem_map_of_mem (fun y => (sanitizePriceLevel y).1) hx)

/-! ## Claim theorems -/

/-- C3: for every order book and `order_size > 0` (either side),
`market_impact` returns a result with
`filled_size + remaining_size = order_size`, `total_cost` equal to the
sum of the consumed levels' costs, and `can_fill ⇔ remaining_size = 0`;
for `order_size ≤ 0` it returns the null result. -/
theorem marketImpact_conservation (b : OrderBook) (orderSize : ℚ)
    (side : String) :
    (0 < orderSize →
      ∃ r : MarketImpact, b.getMarketImpact orderSize side = some r ∧
        r.filledSize + r.remainingSize = orderSize ∧
        r.totalCost = (r.levelsConsumed.map ConsumedLevel.cost).sum ∧
        (r.canFill = true ↔ r.remainingSize = 0)) ∧
    (orderSize ≤ 0 → b.getMarketImpact orderSize side = none) := by
  constructor
  · intro hpos
    have hns : ¬ orderSize ≤ 0 := not_le.mpr hpos
    rw [OrderBook.getMarketImpact, if_neg hns]
    refine ⟨_, rfl, ?_, ?_, ?_⟩
    · show (orderSize - _) + _ = orderSize
      ring
    · show _ = ((impactWalk _ orderSize 0 [] 0).2.2.1.map ConsumedLevel.cost).sum
      have h := impactWalk_cost
        (if side = "buy" then sortAsks b.asks else sortBids b.bids)
        orderSize 0 [] 0
      simp only [List.map_nil, List.sum_nil, add_zero] at h
      exact h.symm
    · show decide _ = true ↔ _
      exact decide_eq_true_iff
  · intro hneg
    rw [OrderBook.getMarketImpact, if_pos hneg]

/-- C3 witness at spec scenario 7: asks (100, 2), (101, 3), (102, 10)
and a buy of size 4. -/
theorem marketImpact_conservation_witness :
    (0 : ℚ) < 4 ∧
    ∃ r : MarketImpact,
      (⟨"x", [], [⟨100, 2, 1, 0⟩, ⟨101, 3, 1, 0⟩, ⟨102, 10, 1, 0⟩], 7, 0⟩ :
        OrderBook).getMarketImpact 4 "buy" = some r ∧
      r.filledSize + r.remainingSize = 4 ∧
      r.totalCost = (r.levelsConsumed.map ConsumedLevel.cost).sum ∧
      (r.canFill = true ↔ r.remainingSize = 0) :=
  ⟨by norm_num,
    (marketImpact_conservation
      ⟨"x", [], [⟨100, 2, 1, 0⟩, ⟨101, 3, 1, 0⟩, ⟨102, 10, 1, 0⟩], 7, 0⟩
      4 "buy").1 (by norm_num)⟩

/-- C10: `getMarketImpact` with any side string other than the exact
`"buy"` — e.g. an arbitrary unvalidated `?side=` query value — behaves
exactly as side `"sell"`: it consumes the bid side descending and prices
slippage off the best bid; the result differs only in the echoed `side`
field. -/
theorem marketImpact_default_sell (b : OrderBook) (orderSize : ℚ)
    (side : String) (h : side ≠ "buy") :
    b.getMarketImpact orderSize side =
      (b.getMarketImpact orderSize "sell").map
        fun r => { r with side := side } := by
  rw [OrderBook.getMarketImpact, OrderBook.getMarketImpact]
  by_cases hneg : orderSize ≤ 0
  · rw [if_pos hneg, if_pos hneg]
    rfl
  · rw [if_neg hneg, if_neg hneg]
    simp only [if_neg h, if_neg (show ¬("sell" : String) = "buy" from by decide),
      Option.map_some']

/-- C10 witness: the capitalised side string `"BUY"` does not match
`'buy'` and is treated as a sell. -/
theorem marketImpact_default_sell_witness :
    sampleBook.getMarketImpact 1 "BUY" =
      (sampleBook.getMarketImpact 1 "sell").map
        fun r => { r with side := "BUY" } :=
  marketImpact_default_sell sampleBook 1 "BUY" (by decide)

/-- C4: `accumulated_to_price` matches the whole-side filtered sums even
though its walk stops at the first non-qualifying level of the sorted
side; `average_price` is `cost/quantity` guarded by `quantity > 0`; the
combined total sums both sides. -/
theorem accumulated_matches_filter_sums (b : OrderBook) (target : ℚ) :
    (b.getAccumulatedQuantityToPrice target "both").bids.quantity =
        ((b.bids.filter fun lv => target ≤ lv.price).map
          PriceLevel.quantity).sum ∧
    (b.getAccumulatedQuantityToPrice target "both").bids.cost =
        ((b.bids.filter fun lv => target ≤ lv.price).map
          fun lv => lv.price * lv.quantity).sum ∧
    (b.getAccumulatedQuantityToPrice target "both").asks.quantity =
        ((b.asks.filter fun lv => lv.price ≤ target).map
          PriceLevel.quantity).sum ∧
    (b.getAccumulatedQuantityToPrice target "both").asks.cost =
        ((b.asks.filter fun lv => lv.price ≤ target).map
          fun lv => lv.price * lv.quantity).sum ∧
    (b.getAccumulatedQuantityToPrice target "both").bids.averagePrice =
        (if (b.getAccumulatedQuantityToPrice target "both").bids.quantity > 0
          then (b.getAccumulatedQuantityToPrice target "both").bids.cost /
            (b.getAccumulatedQuantityToPrice target "both").bids.quantity
          else 0) ∧
    (b.getAccumulatedQuantityToPrice target "both").asks.averagePrice =
        (if (b.getAccumulatedQuantityToPrice target "both").asks.quantity > 0
          then (b.getAccumulatedQuantityToPrice target "both").asks.cost /
            (b.getAccumulatedQuantityToPrice target "both").asks.quantity
          else 0) ∧
    (b.getAccumulatedQuantityToPrice target "both").total.quantity =
        (b.getAccumulatedQuantityToPrice target "both").bids.quantity +
          (b.getAccumulatedQuantityToPrice target "both").asks.quantity ∧
    (b.getAccumulatedQuantityToPrice target "both").total.cost =
        (b.getAccumulatedQuantityToPrice target "both").bids.cost +
          (b.getAccumulatedQuantityToPrice target "both").asks.cost := by
  have hbid := accWalkGE_spec target (sortBids b.bids) (sorted_sortBids b.bids) 0 0
  have hask := accWalkLE_spec target (sortAsks b.asks) (sorted_sortAsks b.asks) 0 0
  have hcostb : ∀ lv : PriceLevel, lv.quantity * lv.price = lv.price * lv.quantity :=
    fun lv => mul_comm _ _
  rw [OrderBook.getAccumulatedQuantityToPrice]
  simp only [if_pos (Or.inl rfl : ("both" : String) = "both" ∨ ("both" : String) = "bids"),
    if_pos (Or.inl rfl : ("both" : String) = "both" ∨ ("both" : String) = "asks")]
  rw [hbid, hask]
  simp only [zero_add]
  refine ⟨?_, ?_, ?_, ?_, trivial, trivial, trivial, trivial⟩
  · exact filter_sum_sortBids b.bids _ _
  · rw [show ((fun lv : PriceLevel => lv.quantity * lv.price) =
        fun lv : PriceLevel => lv.price * lv.quantity) from funext fun lv => mul_comm _ _]
    exact filter_sum_sortBids b.bids _ _
  · exact filter_sum_sortAsks b.asks _ _
  · rw [show ((fun lv : PriceLevel => lv.quantity * lv.price) =
        fun lv : PriceLevel => lv.price * lv.quantity) from funext fun lv => mul_comm _ _]
    exact filter_sum_sortAsks b.asks _ _

/-- C4 witness at spec scenario 8: bids (99, 1), (98, 2), (97, 5) and
target 98 give accumulated quantity 3 and cost 295. -/
theorem accumulated_matches_filter_sums_witness :
    ((⟨"x", [⟨99, 1, 1, 0⟩, ⟨98, 2, 1, 0⟩, ⟨97, 5, 1, 0⟩], [], 7, 0⟩ :
        OrderBook).getAccumulatedQuantityToPrice 98 "both").bids.quantity =
      (((⟨"x", [⟨99, 1, 1, 0⟩, ⟨98, 2, 1, 0⟩, ⟨97, 5, 1, 0⟩], [], 7, 0⟩ :
        OrderBook).bids.filter fun lv => 98 ≤ lv.price).map
          PriceLevel.quantity).sum :=
  (accumulated_matches_filter_sums
    ⟨"x", [⟨99, 1, 1, 0⟩, ⟨98, 2, 1, 0⟩, ⟨97, 5, 1, 0⟩], [], 7, 0⟩ 98).1

/-- C5: over any sequence of `add_bid`/`add_ask` operations on a fresh
book, a side contains a level at price `p` iff the most recent operation
at `p` on that side had quantity `> 0`; a zero-quantity operation at an
absent price is a no-op on the whole book. -/
theorem level_presence (sym : String) (now : ℕ) (ops : List BookOp)
    (p : ℚ) :
    ((containsPrice p (runOps (OrderBook.new sym now) ops).bids = true ↔
        (∃ q, lastBidQty p ops = some q ∧ 0 < q)) ∧
      (containsPrice p (runOps (OrderBook.new sym now) ops).asks = true ↔
        (∃ q, lastAskQty p ops = some q ∧ 0 < q))) ∧
    (∀ (b : OrderBook) (n : ℕ),
        containsPrice p b.bids = false → b.addBid n p 0 1 = b) ∧
    (∀ (b : OrderBook) (n : ℕ),
        containsPrice p b.asks = false → b.addAsk n p 0 1 = b) := by
  refine ⟨⟨?_, ?_⟩, ?_, ?_⟩
  · rw [contains_runOps_bids p ops (OrderBook.new sym now)
      (by simp [OrderBook.new, pricesNodup])]
    cases hq : lastBidQty p ops with
    | none => simp [OrderBook.new, containsPrice]
    | some q => simp
  · rw [contains_runOps_asks p ops (OrderBook.new sym now)
      (by simp [OrderBook.new, pricesNodup])]
    cases hq : lastAskQty p ops with
    | none => simp [OrderBook.new, containsPrice]
    | some q => simp
  · intro b n hc
    rw [OrderBook.addBid, if_neg (by norm_num : ¬(0 : ℚ) > 0),
      mapDelete_of_not_contains hc]
  · intro b n hc
    rw [OrderBook.addAsk, if_neg (by norm_num : ¬(0 : ℚ) > 0),
      mapDelete_of_not_contains hc]

/-- C5 witness: after `add_bid(5, 2)` the bid side contains price 5. -/
theorem level_presence_witness :
    containsPrice 5 (runOps (OrderBook.new "btcusdt" 0)
      [BookOp.bid 1 5 2]).bids = true :=
  ((level_presence "btcusdt" 0 [BookOp.bid 1 5 2] 5).1.1).mpr
    ⟨2, rfl, by norm_num⟩

/-- C6: on a book whose sides have pairwise-distinct prices (the `Map`
key invariant), `bids()` is strictly decreasing and `asks()` strictly
increasing in price; a limit `N ≥ 1` yields the first
`min(N, side size)` levels of the same order; no limit yields the whole
side (up to the query sort). -/
theorem sides_sorted_and_limited (b : OrderBook)
    (hb : pricesNodup b.bids) (ha : pricesNodup b.asks) :
    (b.getBids none).Pairwise (fun x y => y.price < x.price) ∧
    (b.getAsks none).Pairwise (fun x y => x.price < y.price) ∧
    (∀ N : ℤ, 1 ≤ N →
      b.getBids (some N) = (b.getBids none).take N.toNat ∧
      b.getAsks (some N) = (b.getAsks none).take N.toNat ∧
      (b.getBids (some N)).length = min N.toNat b.bids.length ∧
      (b.getAsks (some N)).length = min N.toNat b.asks.length) ∧
    (b.getBids none).Perm b.bids ∧ (b.getAsks none).Perm b.asks := by
  refine ⟨sortBids_strict hb, sortAsks_strict ha, ?_, perm_sortBids b.bids,
    perm_sortAsks b.asks⟩
  intro N hN
  have hN0 : ¬ N = 0 := by omega
  have hNneg : ¬ N < 0 := by omega
  refine ⟨?_, ?_, ?_, ?_⟩
  · rw [OrderBook.getBids, OrderBook.getBids]
    simp only [if_neg hN0]
    rw [jsSlice, if_neg hNneg]
  · rw [OrderBook.getAsks, OrderBook.getAsks]
    simp only [if_neg hN0]
    rw [jsSlice, if_neg hNneg]
  · rw [OrderBook.getBids]
    simp only [if_neg hN0]
    rw [jsSlice, if_neg hNneg, List.length_take,
      (perm_sortBids b.bids).length_eq]
  · rw [OrderBook.getAsks]
    simp only [if_neg hN0]
    rw [jsSlice, if_neg hNneg, List.length_take,
      (perm_sortAsks b.asks).length_eq]

/-- C6 witness: on `sampleBook`, `bids()` is a permutation of the bid
side. -/
theorem sides_sorted_and_limited_witness :
    pricesNodup sampleBook.bids ∧ pricesNodup sampleBook.asks ∧
    (sampleBook.getBids none).Perm sampleBook.bids :=
  ⟨by decide, by decide,
    (sides_sorted_and_limited sampleBook (by decide) (by decide)).2.2.2.1⟩

/-- C7: with both sides non-empty, `spread` is best ask price minus best
bid price and `mid_price` their average (the bests being the extreme
prices of each side); with either side empty both queries return the
absent value. -/
theorem spread_and_mid (b : OrderBook) :
    (b.bids ≠ [] → b.asks ≠ [] →
      ∃ bb ∈ b.bids, ∃ ba ∈ b.asks,
        (∀ x ∈ b.bids, x.price ≤ bb.price) ∧
        (∀ x ∈ b.asks, ba.price ≤ x.price) ∧
        b.getSpread = some (ba.price - bb.price) ∧
        b.getMidPrice = some ((bb.price + ba.price) / 2)) ∧
    ((b.bids = [] ∨ b.asks = []) →
      b.getSpread = none ∧ b.getMidPrice = none) := by
  constructor
  · intro hb ha
    obtain ⟨bb, hbbh, hbbm, hbbmax⟩ := head_sortBids b.bids hb
    obtain ⟨ba, hbah, hbam, hbamin⟩ := head_sortAsks b.asks ha
    refine ⟨bb, hbbm, ba, hbam, hbbmax, hbamin, ?_, ?_⟩
    · rw [OrderBook.getSpread, getBids_one_head?, getAsks_one_head?,
        hbbh, hbah]
    · rw [OrderBook.getMidPrice, getBids_one_head?, getAsks_one_head?,
        hbbh, hbah]
  · rintro (hb | ha)
    · have hh : (sortBids b.bids).head? = none := by
        rw [hb]
        rfl
      constructor
      · rw [OrderBook.getSpread, getBids_one_head?, getAsks_one_head?, hh]
      · rw [OrderBook.getMidPrice, getBids_one_head?, getAsks_one_head?, hh]
    · have hh : (sortAsks b.asks).head? = none := by
        rw [ha]
        rfl
      constructor
      · rw [OrderBook.getSpread, getBids_one_head?, getAsks_one_head?, hh]
        cases (sortBids b.bids).head? <;> rfl
      · rw [OrderBook.getMidPrice, getBids_one_head?, getAsks_one_head?, hh]
        cases (sortBids b.bids).head? <;> rfl

/-- C7 witness: a transiently crossed book reports the negative spread
`-1` without crashing. -/
theorem spread_and_mid_witness : crossedBook.getSpread = some (-1) := by
  obtain ⟨bb, hbbm, ba, hbam, -, -, hs, -⟩ :=
    (spread_and_mid crossedBook).1 (by decide) (by decide)
  have hbb : bb = ⟨10, 1, 1, 0⟩ := by
    simpa [crossedBook] using hbbm
  have hba : ba = ⟨9, 1, 1, 0⟩ := by
    simpa [crossedBook] using hbam
  rw [hs, hbb, hba]
  norm_num

/-- C1: on a book with `0 < last_update_id = L` and a valid diff with
`U − L ≤ 1000`, the diff is applied (with broadcast) and `u` adopted iff
`U ≤ L + 1 ∧ u ≥ L + 1`; when the sequence check fails the call returns
`false`, the book — all fields, both sides, id and timestamp — is
unchanged, and no broadcast is sent. -/
theorem diff_sequence_gate (now : ℕ) (book : OrderBook) (d : DepthUpdate)
    (hL : 0 < book.lastUpdateId) (_hv : isValidDepthUpdate d = true)
    (hgap : d.U - book.lastUpdateId ≤ 1000) :
    ((updateOrderBook now book d =
        (true, applyDiffChanges now d book, true) ∧
      (applyDiffChanges now d book).lastUpdateId = d.u) ↔
      (d.U ≤ book.lastUpdateId + 1 ∧ book.lastUpdateId + 1 ≤ d.u)) ∧
    (¬ (d.U ≤ book.lastUpdateId + 1 ∧ book.lastUpdateId + 1 ≤ d.u) →
      updateOrderBook now book d = (false, book, false)) := by
  have h0 : ¬ book.lastUpdateId = 0 := by omega
  have h1 : ¬ d.U - book.lastUpdateId > 1000 := by omega
  have hseq : validateSequenceNumber book.lastUpdateId d.U d.u = true ↔
      (d.U ≤ book.lastUpdateId + 1 ∧ book.lastUpdateId + 1 ≤ d.u) := by
    rw [validateSequenceNumber, Bool.and_eq_true]
    simp [ge_iff_le]
  constructor
  · constructor
    · rintro ⟨heq, -⟩
      by_contra hc
      have hf : validateSequenceNumber book.lastUpdateId d.U d.u = false :=
        Bool.eq_false_iff.mpr fun ht => hc (hseq.mp ht)
      rw [updateOrderBook, if_neg h0, if_neg h1, hf] at heq
      simp at heq
    · intro hc
      refine ⟨?_, rfl⟩
      rw [updateOrderBook, if_neg h0, if_neg h1,
        if_pos (hseq.mpr hc)]
  · intro hc
    have hf : validateSequenceNumber book.lastUpdateId d.U d.u = false :=
      Bool.eq_false_iff.mpr fun ht => hc (hseq.mp ht)
    rw [updateOrderBook, if_neg h0, if_neg h1, hf]
    rfl

/-- C1 witness at spec scenario 5: `L = 100`, diff `U = 101, u = 105` is
accepted and applied. -/
theorem diff_sequence_gate_witness :
    updateOrderBook 1 book100 diffOk =
      (true, applyDiffChanges 1 diffOk book100, true) :=
  (((diff_sequence_gate 1 book100 diffOk (by decide) (by decide)
    (by decide)).1).mpr (by decide)).1

/-- C2: a valid diff hitting an uninitialized book
(`last_update_id = 0`) or a large gap (`U − L > 1000` with `L > 0`) is
accepted unconditionally: the valid bid/ask changes are applied, `u` is
adopted, the call returns `true` and broadcasts. -/
theorem diff_bootstrap_and_resync (now : ℕ) (book : OrderBook)
    (d : DepthUpdate) (_hv : isValidDepthUpdate d = true)
    (h : book.lastUpdateId = 0 ∨
      (0 < book.lastUpdateId ∧ 1000 < d.U - book.lastUpdateId)) :
    updateOrderBook now book d =
      (true, applyDiffChanges now d book, true) ∧
    (applyDiffChanges now d book).lastUpdateId = d.u := by
  refine ⟨?_, rfl⟩
  rcases h with h0 | ⟨hpos, hgap⟩
  · rw [updateOrderBook, if_pos h0, applyDiffChanges_updateLastUpdateId]
  · have h0 : ¬ book.lastUpdateId = 0 := by omega
    rw [updateOrderBook, if_neg h0, if_pos (by omega : d.U - book.lastUpdateId > 1000),
      applyDiffChanges_updateLastUpdateId]

/-- C2 witness: the first diff on a fresh book is accepted and adopts
its final id 105. -/
theorem diff_bootstrap_and_resync_witness :
    updateOrderBook 5 (OrderBook.new "btcusdt" 0) diffOk =
      (true, applyDiffChanges 5 diffOk (OrderBook.new "btcusdt" 0), true) :=
  (diff_bootstrap_and_resync 5 (OrderBook.new "btcusdt" 0) diffOk
    (by decide) (Or.inl rfl)).1

/-- C8 (as written) is false: a snapshot level with quantity `0` passes
`isValidSnapshot` (quantity ≥ 0), but `addBid` deletes at quantity 0, so
the round-tripped book's bid side is empty while the envelope's is not —
the two are not equal as sets of (price, quantity) pairs. -/
theorem snapshot_roundtrip_counterexample :
    isValidSnapshot snapZero = true ∧
    (setSnapshot 0 (OrderBook.new "btcusdt" 0) snapZero).1 = true ∧
    ¬ ((((setSnapshot 0 (OrderBook.new "btcusdt" 0) snapZero).2.getSnapshot
          none).bids.map fun l => (l.price, l.quantity)).Perm
        (snapZero.bids.map sanitizePriceLevel)) := by
  decide

/-- C8 amended: for snapshot envelopes accepted by `isValidSnapshot`
whose levels all have positive quantity and pairwise-distinct prices per
side, applying the snapshot and zero diffs round-trips: `snapshot()`'s
sides equal the envelope's sanitized (price, quantity) pairs up to
ordering, and `last_update_id` equals the envelope's. -/
theorem snapshot_roundtrip (now : ℕ) (book : OrderBook) (s : RawSnapshot)
    (hv : isValidSnapshot s = true)
    (hbq : ∀ l ∈ s.bids, 0 < (sanitizePriceLevel l).2)
    (haq : ∀ l ∈ s.asks, 0 < (sanitizePriceLevel l).2)
    (hbn : (s.bids.map fun l => (sanitizePriceLevel l).1).Nodup)
    (han : (s.asks.map fun l => (sanitizePriceLevel l).1).Nodup) :
    ∃ b', setSnapshot now book s = (true, b') ∧
      ((b'.getSnapshot none).bids.map fun l => (l.price, l.quantity)).Perm
        (s.bids.map sanitizePriceLevel) ∧
      ((b'.getSnapshot none).asks.map fun l => (l.price, l.quantity)).Perm
        (s.asks.map sanitizePriceLevel) ∧
      some (b'.getSnapshot none).lastUpdateId = s.lastUpdateId := by
  have hv' := hv
  rw [isValidSnapshot, Bool.and_eq_true, Bool.and_eq_true] at hv'
  obtain ⟨⟨hid, hball⟩, haall⟩ := hv'
  rw [List.all_eq_true] at hball haall
  refine ⟨_, by rw [setSnapshot, if_pos hv], ?_, ?_, ?_⟩
  · have hbids :
        (OrderBook.updateLastUpdateId
          (applyAskLevels now s.asks
            (applyBidLevels now s.bids (book.clear now)))
          now (s.lastUpdateId.getD 0)).bids =
          s.bids.map fun l =>
            (⟨(sanitizePriceLevel l).1, (sanitizePriceLevel l).2, 1, now⟩ :
              PriceLevel) := by
      show (applyAskLevels now s.asks
        (applyBidLevels now s.bids (book.clear now))).bids = _
      rw [applyAskLevels_bids]
      rw [applyBidLevels_fresh now s.bids (book.clear now) hball hbq hbn
        (fun l _ => rfl)]
      rfl
    show ((sortBids _).map fun l => (l.price, l.quantity)).Perm _
    refine (((perm_sortBids _).map fun l => (l.price, l.quantity)).trans ?_)
    rw [hbids, List.map_map]
    exact List.Perm.refl _
  · have hasks :
        (OrderBook.updateLastUpdateId
          (applyAskLevels now s.asks
            (applyBidLevels now s.bids (book.clear now)))
          now (s.lastUpdateId.getD 0)).asks =
          s.asks.map fun l =>
            (⟨(sanitizePriceLevel l).1, (sanitizePriceLevel l).2, 1, now⟩ :
              PriceLevel) := by
      show (applyAskLevels now s.asks
        (applyBidLevels now s.bids (book.clear now))).asks = _
      rw [applyAskLevels_fresh now s.asks
        (applyBidLevels now s.bids (book.clear now)) haall haq han
        (fun l _ => by
          rw [applyBidLevels_asks]
          rfl)]
      rw [applyBidLevels_asks]
      rfl
    show ((sortAsks _).map fun l => (l.price, l.quantity)).Perm _
    refine (((perm_sortAsks _).map fun l => (l.price, l.quantity)).trans ?_)
    rw [hasks, List.map_map]
    exact List.Perm.refl _
  · cases hidv : s.lastUpdateId with
    | none =>
      rw [hidv] at hid
      exact absurd hid (by simp)
    | some n => rfl

/-- C8 witness: a well-behaved snapshot envelope is accepted and applied. -/
theorem snapshot_roundtrip_witness :
    isValidSnapshot snapOk = true ∧
    (setSnapshot 0 (OrderBook.new "btcusdt" 0) snapOk).1 = true := by
  refine ⟨by decide, ?_⟩
  obtain ⟨b', h, -, -, -⟩ :=
    snapshot_roundtrip 0 (OrderBook.new "btcusdt" 0) snapOk (by decide)
      (by decide) (by decide) (by decide) (by decide)
  rw [h]

/-- C9 (as written) is false: `isValidSnapshot` tests JS truthiness of
`lastUpdateId`, not `> 0` — a snapshot with `lastUpdateId = -1` and
well-formed (empty) sides is accepted although its id is not positive. -/
theorem snapshot_validator_counterexample :
    isValidSnapshot snapNeg = true ∧ isValidSnapshotSpec snapNeg = false := by
  decide

/-- C9 amended: `isValidSnapshot(msg)` returns true iff `lastUpdateId`
is present and non-zero (truthiness, not `> 0`) and every element of
`bids` and `asks` passes `isValidPriceLevel`. -/
theorem snapshot_validator_spec (s : RawSnapshot) :
    isValidSnapshot s = true ↔
      ((∃ n, s.lastUpdateId = some n ∧ n ≠ 0) ∧
        (∀ l ∈ s.bids, isValidPriceLevel l = true) ∧
        (∀ l ∈ s.asks, isValidPriceLevel l = true)) := by
  rw [isValidSnapshot, Bool.and_eq_true, Bool.and_eq_true]
  rw [List.all_eq_true, List.all_eq_true]
  cases hid : s.lastUpdateId with
  | none => simp
  | some n => simp [and_assoc]

/-- C9 witness: the amended characterisation at a concrete accepted
snapshot. -/
theorem snapshot_validator_spec_witness : isValidSnapshot snapOk = true :=
  (snapshot_validator_spec snapOk).mpr
    ⟨⟨42, rfl, by norm_num⟩, by decide, by decide⟩

end OB247
